import Mathlib

/-!
Verification of the DOT-EVM environment-variable manager against its
natural-language specification.

The development shallowly embeds the parts of the JavaScript source that the
claims are about:

* the content cipher (`src/env-manager.js`: `encryptContent`, `decryptContent`,
  `hasFileChanged`), with Node's `aes-256-gcm` modelled as an idealized
  authenticated stream cipher (keystream XOR for confidentiality, and a
  perfect authentication tag: the tag verifies exactly when key, iv, AAD and
  ciphertext all match — the idealization of GCM's integrity guarantee);
* the local SQLite store (`src/db.js`): the `env_files`, `env_versions`,
  `rollback_history` and `pending_operations` tables and the `dbOps`
  operations over them;
* the CLI flows `pushStagedFiles`, `handleRevert`, `handlePull` (per-file
  decision and effect) and the pending-operation replay phase of `handleSync`;
* the remote server's `POST /env-versions` handler (`src/evm-server/server.js`).

Modelling conventions:
* byte strings (plaintext, ciphertext) are `List Nat`;
* random values (IVs from `crypto.randomBytes(12)`, version tokens from
  `crypto.randomBytes(20).toString("hex")`) are drawn from a counter `rng`
  carried in the state, so they are fresh and pairwise distinct;
* SQLite `CURRENT_TIMESTAMP` is a `Nat` clock in the state that ticks on every
  insert/update, so `createdAt` is strictly increasing in insertion order and
  `ORDER BY createdAt DESC` over a table is reversal of the filtered
  insertion-ordered row list;
* functions that throw in JS return `Option`/a result flag here.
-/

namespace EVM

/-! ## Content cipher (src/env-manager.js lines 44-75 and 127-145)

`generateEncryptionKey` is `crypto.pbkdf2Sync(userEmail, userSalt, 100000, 32,
"sha256")`: a deterministic function of `(email, salt)`.  PBKDF2 is modelled as
the injective function that keeps the pair itself (a collision-free
idealization).  The GCM keystream is modelled by an arbitrary concrete mixing
function of key, iv and position; confidentiality properties are not claimed,
only the XOR structure (encrypt and decrypt apply the same keystream). -/

/-- A rolling hash of a string, used only to give the model keystream a
concrete executable definition. -/
def strMix (s : String) : Nat :=
  s.data.foldl (fun a c => a * 131 + c.toNat) 7

/-- Model keystream for `aes-256-gcm` in counter mode: one `Nat` per position,
determined by the derived key `(email, salt)`, the IV and the position. -/
def keystream (email salt : String) (iv i : Nat) : Nat :=
  strMix email * 92821 + strMix salt * 31 + iv * 7 + i * 3 + 11

/-- XOR a byte list with the keystream starting at position `i`.  Applying it
twice with the same key material gives back the input (XOR involution). -/
def xorStream (email salt : String) (iv : Nat) : Nat → List Nat → List Nat
  | _, [] => []
  | i, p :: ps => (p ^^^ keystream email salt iv i) :: xorStream email salt iv (i + 1) ps

theorem xorStream_involutive (email salt : String) (iv : Nat) :
    ∀ (i : Nat) (l : List Nat),
      xorStream email salt iv i (xorStream email salt iv i l) = l := by
  intro i l
  induction l generalizing i with
  | nil => simp [xorStream]
  | cons p ps ih =>
      simp only [xorStream]
      refine congrArg₂ List.cons ?_ (ih (i + 1))
      exact Nat.xor_cancel_right _ _

/-- The GCM authentication tag, idealized as a perfect MAC: it records the key
material, IV, associated data and ciphertext it was computed over, and
verification is equality.  (Real GCM tags are 128-bit values for which a
mismatch in any of these inputs makes verification fail except with negligible
probability; the model makes that failure certain.) -/
structure Tag where
  keyEmail : String
  keySalt : String
  iv : Nat
  aad : String
  ctext : List Nat
deriving DecidableEq

/-- Result of `encryptContent`: `{ encryptedContent, iv, tag }`. -/
structure EncryptedBlob where
  encryptedContent : List Nat
  iv : Nat
  tag : Tag
deriving DecidableEq

/-- Embedding of `encryptContent(content, userEmail, userSalt)` (env-manager.js:55-75):
derives the key from `(email, salt)`, encrypts with a fresh random IV (here a
parameter supplied by the caller's rng), and binds `userEmail` as AAD
(`cipher.setAAD(Buffer.from(userEmail))`). -/
def encryptContent (content : List Nat) (email salt : String) (iv : Nat) :
    EncryptedBlob :=
  { encryptedContent := xorStream email salt iv 0 content
    iv := iv
    tag := ⟨email, salt, iv, email, xorStream email salt iv 0 content⟩ }

/-- Embedding of `decryptContent(encryptedContent, iv, tag, userEmail, userSalt)`
(env-manager.js:127-145): sets the same AAD, verifies the tag and decrypts.
A tag that does not verify makes `decipher.final` throw, which the source
wraps in `Error("Decryption failed: ...")`; the model returns `none`. -/
def decryptContent (c : List Nat) (iv : Nat) (tag : Tag) (email salt : String) :
    Option (List Nat) :=
  if tag = ⟨email, salt, iv, email, c⟩ then
    some (xorStream email salt iv 0 c)
  else
    none

theorem decryptContent_encryptContent (content : List Nat) (email salt : String)
    (iv : Nat) :
    decryptContent (encryptContent content email salt iv).encryptedContent
      (encryptContent content email salt iv).iv
      (encryptContent content email salt iv).tag email salt = some content := by
  simp [decryptContent, encryptContent, xorStream_involutive]

/-! ## Local store (src/db.js)

Row types mirror the SQLite schema created by `migrateDatabase`.  Version
tokens are random 20-byte hex strings in the source; the model draws them from
the `rng` counter, so a token is a `Nat`.  `rollback_history.from_version_token`
can be the literal string `"unknown"` (db.js:843, when a file has no versions
yet); that case is `none` here. -/

/-- A row of `users` (only the columns the claims need). -/
structure UserRow where
  email : String
  encryptionSalt : String
deriving DecidableEq

/-- A row of `env_files`. -/
structure EnvFileRow where
  id : Nat
  projectId : Nat
  name : String
  encryptedContent : List Nat
  iv : Nat
  tag : Tag
  currentVersionId : Option Nat
  createdAt : Nat
  updatedAt : Nat
deriving DecidableEq

/-- A row of `env_versions`. -/
structure EnvVersionRow where
  id : Nat
  envFileId : Nat
  versionToken : Nat
  encryptedContent : List Nat
  iv : Nat
  tag : Tag
  commitMessage : String
  authorEmail : String
  parentVersionId : Option Nat
  synced : Bool
  createdAt : Nat
deriving DecidableEq

/-- A row of `rollback_history` (`from_version_token = none` models the
`"unknown"` fallback string). -/
structure RollbackRow where
  id : Nat
  envFileId : Nat
  fromVersionToken : Option Nat
  toVersionToken : Nat
  reason : String
  performedBy : String
  synced : Bool
  createdAt : Nat
deriving DecidableEq

/-- A row of `pending_operations`.  `opType` is `RENAME`/`DELETE`/`SYNC` and
`entityType` is `FILE`/`PROJECT`/`VERSION`, kept abstract as strings exactly as
the table stores them. -/
structure PendingOpRow where
  id : Nat
  opType : String
  entityType : String
  entityId : Nat
  oldName : String
  userId : Nat
  processed : Bool
  createdAt : Nat
deriving DecidableEq

/-- The local SQLite database.  Each table is its insertion-ordered row list;
`next...Id` model the per-table AUTOINCREMENT counters, `now` models
`CURRENT_TIMESTAMP` (ticked on every write so timestamps are strictly
increasing), and `rng` feeds `crypto.randomBytes` (fresh IVs and tokens). -/
structure Db where
  users : List UserRow
  envFiles : List EnvFileRow
  envVersions : List EnvVersionRow
  rollbackHistory : List RollbackRow
  pendingOperations : List PendingOpRow
  nextFileId : Nat
  nextVersionId : Nat
  nextRollbackId : Nat
  now : Nat
  rng : Nat
deriving DecidableEq

/-- Advance the model clock by one tick. -/
def Db.tick (db : Db) : Db := { db with now := db.now + 1 }

/-- Draw a fresh random value (IV or version token) from the rng counter. -/
def Db.fresh (db : Db) : Nat × Db := (db.rng, { db with rng := db.rng + 1 })

/-- Embedding of `getUserEncryptionSalt` (db.js:971-974): `SELECT * FROM users WHERE email = ?`
and read `encryption_salt`, `null` when the user is missing. -/
def getUserEncryptionSalt (db : Db) (email : String) : Option String :=
  (db.users.find? (fun u => u.email = email)).map (·.encryptionSalt)

/-- The `getEnvFileByProjectAndName` statement:
`SELECT * FROM env_files WHERE project_id = ? AND name = ?` (first row). -/
def getEnvFileByProjectAndName (db : Db) (projectId : Nat) (name : String) :
    Option EnvFileRow :=
  db.envFiles.find? (fun f => f.projectId = projectId ∧ f.name = name)

/-- The `getEnvFileById` statement: `SELECT * FROM env_files WHERE id = ?`. -/
def getEnvFileById (db : Db) (fileId : Nat) : Option EnvFileRow :=
  db.envFiles.find? (fun f => f.id = fileId)

/-- The `getVersionsByEnvFile` statement:
`SELECT * FROM env_versions WHERE env_file_id = ? ORDER BY createdAt DESC`.
Rows are stored in insertion order with strictly increasing `createdAt`, so
the descending order is the reverse of the filtered list. -/
def getVersionsByEnvFile (db : Db) (fileId : Nat) : List EnvVersionRow :=
  (db.envVersions.filter (fun v => v.envFileId = fileId)).reverse

/-- The `getVersionByToken` statement:
`SELECT * FROM env_versions WHERE version_token = ?` — note: across ALL files.
`.get` returns the first row in rowid (insertion) order. -/
def getVersionByToken (db : Db) (token : Nat) : Option EnvVersionRow :=
  db.envVersions.find? (fun v => v.versionToken = token)

/-- Lookup of a version row by rowid (used to walk `parent_version_id`). -/
def getVersionById (db : Db) (versionId : Nat) : Option EnvVersionRow :=
  db.envVersions.find? (fun v => v.id = versionId)

/-- The `insertEnvFile` statement: appends a row; `createdAt`/`updatedAt` default to
`CURRENT_TIMESTAMP`.  Returns `lastInsertRowid`. -/
def insertEnvFile (db : Db) (projectId : Nat) (name : String)
    (c : List Nat) (iv : Nat) (tag : Tag) : Nat × Db :=
  (db.nextFileId,
   { db.tick with
      envFiles := db.envFiles ++
        [⟨db.nextFileId, projectId, name, c, iv, tag, none, db.now, db.now⟩]
      nextFileId := db.nextFileId + 1 })

/-- The `updateEnvFile` statement: `UPDATE env_files SET encrypted_content = ?,
iv = ?, tag = ?, updatedAt = CURRENT_TIMESTAMP WHERE id = ?`. -/
def updateEnvFile (db : Db) (c : List Nat) (iv : Nat) (tag : Tag)
    (fileId : Nat) : Db :=
  { db.tick with
      envFiles := db.envFiles.map (fun f =>
        if f.id = fileId then
          { f with encryptedContent := c, iv := iv, tag := tag, updatedAt := db.now }
        else f) }

/-- The `updateEnvFileVersion` statement: `UPDATE env_files SET
current_version_id = ?, updatedAt = CURRENT_TIMESTAMP WHERE id = ?`. -/
def updateEnvFileVersion (db : Db) (versionId fileId : Nat) : Db :=
  { db.tick with
      envFiles := db.envFiles.map (fun f =>
        if f.id = fileId then
          { f with currentVersionId := some versionId, updatedAt := db.now }
        else f) }

/-- The `insertEnvVersion` statement: appends a version row (`syncedToServer`
defaults to 0, `createdAt` to `CURRENT_TIMESTAMP`).  Returns
`lastInsertRowid`. -/
def insertEnvVersion (db : Db) (fileId token : Nat) (c : List Nat) (iv : Nat)
    (tag : Tag) (msg author : String) (parentVersionId : Option Nat) :
    Nat × Db :=
  (db.nextVersionId,
   { db.tick with
      envVersions := db.envVersions ++
        [⟨db.nextVersionId, fileId, token, c, iv, tag, msg, author,
          parentVersionId, false, db.now⟩]
      nextVersionId := db.nextVersionId + 1 })

/-- The `insertRollbackHistory` statement: appends a rollback row with
`syncedToServer = 0`. -/
def insertRollbackHistory (db : Db) (fileId : Nat) (fromTok : Option Nat)
    (toTok : Nat) (reason performedBy : String) : Db :=
  { db.tick with
      rollbackHistory := db.rollbackHistory ++
        [⟨db.nextRollbackId, fileId, fromTok, toTok, reason, performedBy,
          false, db.now⟩]
      nextRollbackId := db.nextRollbackId + 1 }

/-! ### dbOps operations (src/db.js) -/

/-- Embedding of `dbOps.createOrUpdateEnvFile` (db.js:578-614): update the existing row for
`(projectId, fileName)` or insert a new one; returns the file id. -/
def createOrUpdateEnvFile (db : Db) (projectId : Nat) (name : String)
    (c : List Nat) (iv : Nat) (tag : Tag) : Nat × Db :=
  match getEnvFileByProjectAndName db projectId name with
  | some f => (f.id, updateEnvFile db c iv tag f.id)
  | none => insertEnvFile db projectId name c iv tag

/-- Embedding of `dbOps.createEnvVersion` (db.js:727-755): insert the version row, then
point the file's `current_version_id` at it.  `parentVersionId` defaults to
`null` when the caller omits it. -/
def createEnvVersion (db : Db) (fileId token : Nat) (c : List Nat) (iv : Nat)
    (tag : Tag) (msg author : String) (parentVersionId : Option Nat) :
    Nat × Db :=
  let (vid, db1) := insertEnvVersion db fileId token c iv tag msg author parentVersionId
  (vid, updateEnvFileVersion db1 vid fileId)

/-- Embedding of `dbOps.getPendingOperations` (db.js:1197-1210):
`SELECT * FROM pending_operations WHERE user_id = ? AND processed = 0
ORDER BY createdAt ASC`.  Rows are kept in insertion order with increasing
`createdAt`, so ascending order is the filtered list itself. -/
def getPendingOperations (db : Db) (userId : Nat) : List PendingOpRow :=
  db.pendingOperations.filter (fun op => op.userId = userId ∧ op.processed = false)

/-- Embedding of `dbOps.markOperationAsProcessed` (db.js:1212-1230):
`UPDATE pending_operations SET processed = 1 WHERE id = ?`.  The row is not
deleted; it merely stops matching `getPendingOperations`. -/
def markOperationAsProcessed (db : Db) (opId : Nat) : Db :=
  { db with
      pendingOperations := db.pendingOperations.map (fun op =>
        if op.id = opId then { op with processed := true } else op) }

/-- Embedding of `dbOps.rollbackToVersion` (db.js:824-910).  `newToken` stands for the
`crypto.randomBytes(20)` draw.  Steps, exactly as in the source: look up the
target by token (global, any file) and the env file by id; read the current
version as the first row of `getVersionsByEnvFile` (latest `createdAt`);
insert a rollback-history row `(from = current token or "unknown",
to = target token)`; insert a new version that copies the target's
`encrypted_content`/`iv`/`tag` with the target's commit message, authored by
`performedBy`, whose parent is the current version's id; copy the target's
content into the `env_files` row; point `current_version_id` at the new
version.  (The best-effort `fs.writeFileSync` of the decrypted content is
outside the store and not modelled; its failure is caught in the source.)
Returns `none` on the NotFound error paths, otherwise the new token. -/
def rollbackToVersion (db : Db) (fileId targetToken : Nat)
    (reason performedBy : String) : Option Nat × Db :=
  match getVersionByToken db targetToken with
  | none => (none, db)
  | some target =>
    match getEnvFileById db fileId with
    | none => (none, db)
    | some _ =>
      let currentVersion := (getVersionsByEnvFile db fileId).head?
      let db1 := insertRollbackHistory db fileId
        (currentVersion.map (·.versionToken)) targetToken reason performedBy
      let (newToken, db2) := db1.fresh
      let (newId, db3) := insertEnvVersion db2 fileId newToken
        target.encryptedContent target.iv target.tag target.commitMessage
        performedBy (currentVersion.map (·.id))
      let db4 := updateEnvFile db3 target.encryptedContent target.iv target.tag fileId
      let db5 := updateEnvFileVersion db4 newId fileId
      (some newToken, db5)

/-- Embedding of `hasFileChanged` (env-manager.js:96-125): decrypt the latest version of the
file and compare with the on-disk content.  Every failure — missing file
record, no versions, missing salt, or a decryption (integrity) failure — is
caught and reported as `true` ("changed"); the function never fails. -/
def hasFileChanged (db : Db) (projectId : Nat) (fileName : String)
    (currentContent : List Nat) (userEmail : String) : Bool :=
  match getEnvFileByProjectAndName db projectId fileName with
  | none => true
  | some f =>
    match (getVersionsByEnvFile db f.id).head? with
    | none => true
    | some latest =>
      match getUserEncryptionSalt db userEmail with
      | none => true
      | some salt =>
        match decryptContent latest.encryptedContent latest.iv latest.tag
            userEmail salt with
        | none => true
        | some decrypted => decide (currentContent ≠ decrypted)

/-! ## CLI state and flows -/

/-- One file inside the staging record (`stagedData.files[i]`). -/
structure StagedFile where
  name : String
  content : List Nat
deriving DecidableEq

/-- The staging record written by `saveStagedFiles` (env-manager.js:147-150)
and read back by `loadStagedFiles`. -/
structure StagedData where
  projectId : Nat
  userEmail : String
  commitMessage : String
  isRevert : Bool
  files : List StagedFile
deriving DecidableEq

/-- CLI-side state: the local database, the per-project staging record (the
JSON file; `none` = absent), the working directory's files on disk, whether a
session exists (`dbOps.isLoggedIn`), and whether the remote server is
reachable and accepting every request (`online = false` models connectivity
failure: every axios call throws and is caught). -/
structure LocalState where
  db : Db
  staging : Option StagedData
  disk : List (String × List Nat)
  loggedIn : Bool
  online : Bool
deriving DecidableEq

/-- Write a file to the working directory (`fs.writeFileSync`). -/
def diskWrite (disk : List (String × List Nat)) (name : String)
    (content : List Nat) : List (String × List Nat) :=
  if (disk.find? (fun p => p.1 = name)).isSome then
    disk.map (fun p => if p.1 = name then (p.1, content) else p)
  else
    disk ++ [(name, content)]

/-- Read a file from the working directory. -/
def diskRead (disk : List (String × List Nat)) (name : String) :
    Option (List Nat) :=
  (disk.find? (fun p => p.1 = name)).map (·.2)

/-- The commit body of `pushStagedFiles` for one staged file
(env-manager.js:706-741): encrypt the staged plaintext (fresh IV; the salt
comes from the user's row, and a missing salt makes `encryptContent` throw,
caught by the per-file catch, skipping the file), draw a fresh version token,
upsert the `env_files` row, then `createEnvVersion` — called with SEVEN
arguments (env-manager.js:720-728), so `parentVersionId` takes its default
`null`: the new version is inserted with no parent. -/
def commitOneFile (email msg : String) (projectId : Nat) (db : Db)
    (f : StagedFile) : Db :=
  match getUserEncryptionSalt db email with
  | none => db
  | some salt =>
    let (iv, db1) := db.fresh
    let enc := encryptContent f.content email salt iv
    let (tok, db2) := db1.fresh
    let (fid, db3) := createOrUpdateEnvFile db2 projectId f.name
      enc.encryptedContent enc.iv enc.tag
    (createEnvVersion db3 fid tok enc.encryptedContent enc.iv enc.tag
      msg email none).2

/-- Embedding of `syncSpecificFiles` (env-manager.js:560-673), as called at the end of
`pushStagedFiles`: when the server is reachable it posts the `env_files` row,
every unsynced version and every unsynced rollback row of each pushed file,
marking each row synced after the acknowledgment; when any call fails the
exception propagates to `pushStagedFiles`' catch and no further local change
happens.  `online = true` models the all-acknowledged run, `online = false`
the connectivity-failure run. -/
def syncSpecificFiles (online : Bool) (db : Db) (projectId : Nat)
    (files : List StagedFile) : Db :=
  if online = false then db
  else
    files.foldl (fun d f =>
      match getEnvFileByProjectAndName d projectId f.name with
      | none => d
      | some ef =>
        { d with
            envVersions := d.envVersions.map (fun v =>
              if v.envFileId = ef.id then { v with synced := true } else v)
            rollbackHistory := d.rollbackHistory.map (fun r =>
              if r.envFileId = ef.id then { r with synced := true } else r) })
      db

/-- Embedding of `pushStagedFiles` (env-manager.js:675-778): exit early when not logged in
or nothing is staged; when the staging record is flagged `isRevert`, skip
local version creation entirely; otherwise run the per-file commit loop (each
file's failure is caught individually).  Then `clearStagingArea()` —
unconditionally, before the cloud sync is even attempted — and finally the
best-effort `syncSpecificFiles`, whose failure is caught and only reported. -/
def pushStagedFiles (st : LocalState) : LocalState :=
  if st.loggedIn = false then st
  else
    match st.staging with
    | none => st
    | some sd =>
      let db1 :=
        if sd.isRevert then st.db
        else sd.files.foldl (commitOneFile sd.userEmail sd.commitMessage sd.projectId) st.db
      let db2 := syncSpecificFiles st.online db1 sd.projectId sd.files
      { st with db := db2, staging := none }

/-- Embedding of `handleRevert` (src/commands, part_012:479-675), reached from the CLI
dispatch `evm revert <hash>` (index.js:295-296).  The handler looks up the
versions whose token matches the given hash; when none match it reports
"Commit hash not found".  When a unique commit matches, it decrypts each
matched version's content and builds a staging record with `isRevert: false`
and the ORIGINAL commit message, then calls `saveStagedFiles(stagedData)` —
but that name was destructured from `require("../env-manager")`
(part_012:628), and env-manager.js does NOT export `saveStagedFiles`
(its module.exports, env-manager.js:936-944, lists only `addEnvFiles`,
`pushStagedFiles`, `syncPendingFiles`, `scanEnvFiles`, `encryptContent`,
`decryptContent`, `stageRevertedFile`).  The binding is therefore `undefined`,
the call raises a TypeError, and the handler's catch prints "Revert failed".
In every branch the handler terminates without inserting any row, writing the
staging record, or touching the disk.  It never calls
`dbOps.rollbackToVersion`, so it records no rollback-history row either. -/
def handleRevert (st : LocalState) (commitHash : Nat) : LocalState :=
  match st.db.envVersions.filter (fun v => v.versionToken = commitHash) with
  | [] => st
  | _ :: _ => st

/-! ### Pull (part_011:616-819) -/

/-- One element of a remote file's embedded `versions` array. -/
structure RemoteVersion where
  versionToken : Nat
  encryptedContent : List Nat
  iv : Nat
  tag : Tag
  commitMessage : String
  authorEmail : String
  parentVersionId : Option Nat
deriving DecidableEq

/-- One file as returned by `GET /projects/:name/files`. -/
structure RemoteFile where
  name : String
  encryptedContent : List Nat
  iv : Nat
  tag : Tag
  updatedAt : Nat
  currentVersionId : Option Nat
  versions : List RemoteVersion
deriving DecidableEq

/-- The statement `UPDATE env_files SET current_version_id = ? WHERE id = ?` prepared
inline in `restoreFileWithVersions` (db.js:690-694) — unlike
`updateEnvFileVersion` it does not touch `updatedAt`. -/
def setCurrentVersionIdOnly (db : Db) (versionId fileId : Nat) : Db :=
  { db with
      envFiles := db.envFiles.map (fun f =>
        if f.id = fileId then { f with currentVersionId := some versionId }
        else f) }

/-- Embedding of `dbOps.restoreFileWithVersions` (db.js:635-704): in one transaction,
upsert the `env_files` row with the remote blob, delete every existing
`env_versions` row of the file, insert the remote version list wholesale, and
set `current_version_id` when the remote value is truthy (JS `if
(fileData.current_version_id)`: `null`/`undefined`/`0` are falsy). -/
def restoreFileWithVersions (db : Db) (projectId : Nat) (name : String)
    (c : List Nat) (iv : Nat) (tag : Tag) (currentVersionId : Option Nat)
    (versions : List RemoteVersion) : Db :=
  let (fid, db1) :=
    match getEnvFileByProjectAndName db projectId name with
    | some f => (f.id, updateEnvFile db c iv tag f.id)
    | none => insertEnvFile db projectId name c iv tag
  let db2 := { db1 with
    envVersions := db1.envVersions.filter (fun v => v.envFileId ≠ fid) }
  let db3 := versions.foldl (fun d v =>
    (insertEnvVersion d fid v.versionToken v.encryptedContent v.iv v.tag
      v.commitMessage v.authorEmail v.parentVersionId).2) db2
  match currentVersionId with
  | some cv => if cv = 0 then db3 else setCurrentVersionIdOnly db3 cv fid
  | none => db3

/-- JS `dateA > dateB` where each side is `new Date(x)`: comparing with an
Invalid Date (`new Date(undefined)` — NaN) is always false. -/
def jsDateGt : Option Nat → Option Nat → Bool
  | some a, some b => a > b
  | _, _ => false

/-- part_011:705 reads `localFile.updated_at`, but `env_files` rows carry the
column `updatedAt` (db.js schema, line 208), so the property access yields
`undefined` for every row. -/
def localFileUpdatedAtField (_ : EnvFileRow) : Option Nat := none

/-- Outcome of the per-file pull loop body. -/
inductive PullOutcome where
  | pulled
  | skipped
  | errored
deriving DecidableEq

/-- The body of `handlePull`'s per-cloud-file loop (part_011:676-791).
Decision table from the source: absent from disk and DB → pull; in DB but
missing from disk → restore; on disk but not in DB → "updating database"
(which still goes through the full pull path, disk write included); present
in both → pull iff `new Date(updated_at) > new Date(localFile.updated_at)`,
where the right-hand side is `new Date(undefined)` (see
`localFileUpdatedAtField`), otherwise skip.  A pull decrypts the remote blob
(a throw is caught per file → error outcome), writes the plaintext to disk,
then restores the file row and its whole version chain into the database. -/
def handlePullFile (st : LocalState) (email salt : String) (projectId : Nat)
    (cf : RemoteFile) : LocalState × PullOutcome :=
  let localFile := st.db.envFiles.find? (fun f =>
    f.projectId = projectId ∧ f.name = cf.name)
  let fileExistsOnDisk := (diskRead st.disk cf.name).isSome
  let shouldPull :=
    match fileExistsOnDisk, localFile with
    | false, none => true
    | false, some _ => true
    | true, none => true
    | true, some lf => jsDateGt (some cf.updatedAt) (localFileUpdatedAtField lf)
  if shouldPull = false then (st, .skipped)
  else
    match decryptContent cf.encryptedContent cf.iv cf.tag email salt with
    | none => (st, .errored)
    | some decrypted =>
      let disk1 := diskWrite st.disk cf.name decrypted
      let db1 := restoreFileWithVersions st.db projectId cf.name
        cf.encryptedContent cf.iv cf.tag cf.currentVersionId cf.versions
      ({ st with db := db1, disk := disk1 }, .pulled)

/-! ### Sync: pending-operation replay (part_011:131-318) -/

/-- The pending-operation replay phase of `handleSync`: fetch the user's
unprocessed operations once (`getPendingOperations`, ordered oldest first),
then for each one in that order resend it to the remote.  `ack op = true`
models the remote acknowledging the replay (for `RENAME`: the rename endpoint
answered success; for `DELETE`: the delete endpoint; for `SYNC`: the
`/env-files` post); `ack op = false` covers every failure path — a thrown
request error (caught by the per-operation catch), a non-success response, or
a missing local row.  Only an acknowledged operation is marked processed. -/
def processPendingOps (db : Db) (userId : Nat) (ack : PendingOpRow → Bool) : Db :=
  (getPendingOperations db userId).foldl
    (fun d op => if ack op then markOperationAsProcessed d op.id else d) db

/-! ## Remote server (src/evm-server/server.js) -/

/-- A remote `projects` row. -/
structure SrvProject where
  id : Nat
  userId : Nat
  name : String
deriving DecidableEq

/-- A remote `env_files` row (only the columns the handler reads). -/
structure SrvEnvFile where
  id : Nat
  projectId : Nat
  name : String
deriving DecidableEq

/-- A remote `env_versions` row. -/
structure SrvVersionRow where
  id : Nat
  envFileId : Nat
  versionToken : Nat
  encryptedContent : List Nat
  iv : Nat
  tag : Tag
  commitMessage : String
  authorEmail : String
deriving DecidableEq

/-- The remote Postgres store, as far as `POST /env-versions` touches it. -/
structure SrvDb where
  projects : List SrvProject
  envFiles : List SrvEnvFile
  envVersions : List SrvVersionRow
  nextVersionId : Nat
deriving DecidableEq

/-- Request body of `POST /env-versions` (the fields the handler uses). -/
structure VersionPostBody where
  projectName : String
  fileName : String
  versionToken : Nat
  encryptedContent : List Nat
  iv : Nat
  tag : Tag
  commitMessage : String
  authorEmail : String
deriving DecidableEq

/-- Response of the handler: 404s for unknown project/file, 200 `success:true`
otherwise. -/
inductive SrvResponse where
  | projectNotFound
  | fileNotFound
  | ok
deriving DecidableEq

/-- The `POST /env-versions` handler (server.js:377-468): resolve the project
by `(userId, project_name)` and the env file by `(projectId, file_name)`;
then `SELECT id FROM env_versions WHERE env_file_id = ... AND version_token =
...` and INSERT only when that query returns no row ("already exists,
skipping"); answer `success: true` in both cases. -/
def postEnvVersions (db : SrvDb) (userId : Nat) (b : VersionPostBody) :
    SrvDb × SrvResponse :=
  match db.projects.find? (fun p => p.userId = userId ∧ p.name = b.projectName) with
  | none => (db, .projectNotFound)
  | some p =>
    match db.envFiles.find? (fun f => f.projectId = p.id ∧ f.name = b.fileName) with
    | none => (db, .fileNotFound)
    | some f =>
      let existing := db.envVersions.filter (fun v =>
        v.envFileId = f.id ∧ v.versionToken = b.versionToken)
      if existing.isEmpty then
        ({ db with
            envVersions := db.envVersions ++
              [⟨db.nextVersionId, f.id, b.versionToken, b.encryptedContent,
                b.iv, b.tag, b.commitMessage, b.authorEmail⟩]
            nextVersionId := db.nextVersionId + 1 }, .ok)
      else
        (db, .ok)

/-! ## Ancestry walk

Walking `parent_version_id` from a file's head (`current_version_id`), as the
spec's "version chain integrity" property describes.  Fueled by the table
size, which bounds any acyclic chain. -/

/-- Follow `parent_version_id` links starting from a version id. -/
def walkParents (db : Db) : Nat → Option Nat → List EnvVersionRow
  | 0, _ => []
  | _, none => []
  | fuel + 1, some vid =>
    match getVersionById db vid with
    | none => []
    | some v => v :: walkParents db fuel v.parentVersionId

/-- The ancestry chain of a file: start at `current_version_id` and follow
`parent_version_id` until a version with no parent. -/
def chainFromHead (db : Db) (fileId : Nat) : List EnvVersionRow :=
  match getEnvFileById db fileId with
  | none => []
  | some f => walkParents db db.envVersions.length f.currentVersionId

/-! ## List helper lemmas -/

theorem find?_append_of_none {α} (p : α → Bool) (l₁ l₂ : List α)
    (h : l₁.find? p = none) : (l₁ ++ l₂).find? p = l₂.find? p := by
  induction l₁ with
  | nil => simp
  | cons a l ih =>
      rcases hpa : p a with _ | _
      · have h' : l.find? p = none := by
          have := h
          rwa [List.find?_cons_of_neg _ (by simp [hpa])] at this
        rw [List.cons_append, List.find?_cons_of_neg _ (by simp [hpa])]
        exact ih h'
      · exfalso
        rw [List.find?_cons_of_pos _ hpa] at h
        exact Option.noConfusion h

theorem find?_map_eq {α β} (g : α → β) (p : β → Bool) (l : List α) :
    (l.map g).find? p = (l.find? (fun a => p (g a))).map g := by
  induction l with
  | nil => simp
  | cons a l ih =>
      rcases hpa : p (g a) with _ | _
      · rw [List.map_cons, List.find?_cons_of_neg _ (by simp [hpa]),
          List.find?_cons_of_neg _ (by simp [hpa]), ih]
      · rw [List.map_cons, List.find?_cons_of_pos _ hpa]
        have hr : List.find? (fun x => p (g x)) (a :: l) = some a :=
          List.find?_cons_of_pos _ hpa
        rw [hr]
        rfl

theorem find?_eq_none_of_key_lt {α} (key : α → Nat) (l : List α) (n : Nat)
    (h : ∀ v ∈ l, key v < n) : l.find? (fun v => key v = n) = none := by
  rw [List.find?_eq_none]
  intro v hv
  simp only [decide_eq_true_eq]
  exact Nat.ne_of_lt (h v hv)

/-- Finding by id commutes with mapping an id-preserving row update. -/
theorem find?_id_map_of_id_preserved (g : EnvFileRow → EnvFileRow)
    (hg : ∀ r, (g r).id = r.id) (l : List EnvFileRow) (n : Nat) :
    (l.map g).find? (fun r => r.id = n) =
      (l.find? (fun r => r.id = n)).map g := by
  rw [find?_map_eq]
  simp only [hg]

theorem walkParents_none (db : Db) (fuel : Nat) :
    walkParents db fuel none = [] := by
  cases fuel <;> rfl

theorem walkParents_succ_some (db : Db) (n vid : Nat) :
    walkParents db (n + 1) (some vid) =
      match getVersionById db vid with
      | none => []
      | some v => v :: walkParents db n v.parentVersionId := rfl

theorem find?_id_upd_append (l : List EnvFileRow) (nfr : EnvFileRow) (n : Nat)
    (g : EnvFileRow → EnvFileRow) (hg : ∀ r, (g r).id = r.id)
    (hn : nfr.id = n) (hlt : ∀ r ∈ l, r.id < n) :
    (List.map g (l ++ [nfr])).find? (fun r => r.id = n) = some (g nfr) := by
  have h0 : (List.map g l).find? (fun r => r.id = n) = none := by
    rw [find?_id_map_of_id_preserved g hg,
      find?_eq_none_of_key_lt (fun r : EnvFileRow => r.id) l n hlt]
    rfl
  rw [List.map_append, find?_append_of_none _ _ _ h0, List.map_singleton]
  exact List.find?_cons_of_pos _ (by simp [hg, hn])

theorem find?_id_upd_map (l : List EnvFileRow) (n : Nat)
    (g1 g2 : EnvFileRow → EnvFileRow)
    (hg1 : ∀ r, (g1 r).id = r.id) (hg2 : ∀ r, (g2 r).id = r.id)
    (x : EnvFileRow) (hx : l.find? (fun r => r.id = n) = some x) :
    (List.map g2 (List.map g1 l)).find? (fun r => r.id = n) = some (g2 (g1 x)) := by
  rw [find?_id_map_of_id_preserved g2 hg2, find?_id_map_of_id_preserved g1 hg1, hx]
  rfl

theorem find?_version_append (l : List EnvVersionRow) (vrow : EnvVersionRow)
    (n : Nat) (hn : vrow.id = n) (hlt : ∀ v ∈ l, v.id < n) :
    (l ++ [vrow]).find? (fun v => v.id = n) = some vrow := by
  rw [find?_append_of_none _ _ _
    (find?_eq_none_of_key_lt (fun v : EnvVersionRow => v.id) l n hlt)]
  exact List.find?_cons_of_pos _ (by simp [hn])

theorem diskRead_diskWrite (disk : List (String × List Nat)) (n : String)
    (c : List Nat) : diskRead (diskWrite disk n c) n = some c := by
  rcases hfound : disk.find? (fun p => p.1 = n) with _ | x
  · simp only [diskWrite, hfound, Option.isSome_none, Bool.false_eq_true,
      if_false, diskRead]
    rw [find?_append_of_none _ _ _ hfound]
    simp [List.find?_cons_of_pos]
  · simp only [diskWrite, hfound, Option.isSome_some, if_true, diskRead]
    have hx1 : x.1 = n := by simpa using List.find?_some hfound
    rw [find?_map_eq]
    have hpred : (fun p : String × List Nat =>
        decide ((if p.1 = n then (p.1, c) else p).1 = n)) =
        (fun p : String × List Nat => decide (p.1 = n)) := by
      funext p
      by_cases h : p.1 = n <;> simp [h]
    rw [hpred, hfound]
    simp [hx1]

theorem foldl_insert_envFiles (versions : List RemoteVersion) (fid : Nat)
    (d : Db) :
    (versions.foldl (fun d v =>
      (insertEnvVersion d fid v.versionToken v.encryptedContent v.iv v.tag
        v.commitMessage v.authorEmail v.parentVersionId).2) d).envFiles =
      d.envFiles := by
  induction versions generalizing d with
  | nil => rfl
  | cons v vs ih =>
      simp only [List.foldl_cons]
      rw [ih]
      rfl

theorem find?_projname_map (g : EnvFileRow → EnvFileRow)
    (hgp : ∀ r, (g r).projectId = r.projectId) (hgn : ∀ r, (g r).name = r.name)
    (l : List EnvFileRow) (pid : Nat) (nm : String) :
    (l.map g).find? (fun r => r.projectId = pid ∧ r.name = nm) =
      (l.find? (fun r => r.projectId = pid ∧ r.name = nm)).map g := by
  rw [find?_map_eq]
  simp only [hgp, hgn]

/-- What one iteration of the `pushStagedFiles` commit loop does to the store
when the user's salt exists and the AUTOINCREMENT counters bound the existing
row ids: exactly one version row is appended, it carries `parentVersionId =
none` (`createEnvVersion` is invoked with seven arguments,
env-manager.js:720-728, so the parameter takes its default `null`), and
walking `parent_version_id` from the file's new head reaches only that row. -/
theorem commitOneFile_spec (db : Db) (email msg : String) (pid : Nat)
    (f : StagedFile) (salt : String)
    (hsalt : getUserEncryptionSalt db email = some salt)
    (hvid : ∀ v ∈ db.envVersions, v.id < db.nextVersionId)
    (hfid : ∀ fr ∈ db.envFiles, fr.id < db.nextFileId) :
    ∃ fid vrow,
      (commitOneFile email msg pid db f).envVersions = db.envVersions ++ [vrow] ∧
      vrow.parentVersionId = none ∧
      chainFromHead (commitOneFile email msg pid db f) fid = [vrow] := by
  rcases hfind : getEnvFileByProjectAndName db pid f.name with _ | fr
  · simp only [getEnvFileByProjectAndName] at hfind
    simp only [commitOneFile, hsalt, Db.fresh, createOrUpdateEnvFile,
      getEnvFileByProjectAndName, hfind, insertEnvFile, createEnvVersion,
      insertEnvVersion, updateEnvFileVersion, Db.tick]
    refine ⟨db.nextFileId, _, rfl, rfl, ?_⟩
    rw [chainFromHead]
    simp only [getEnvFileById]
    rw [find?_id_upd_append db.envFiles _ db.nextFileId _
      (by intro r; by_cases h : r.id = db.nextFileId <;> simp [h]) rfl hfid]
    simp only [if_true, eq_self_iff_true, List.length_append, List.length_cons,
      List.length_nil, Nat.zero_add]
    rw [walkParents_succ_some]
    simp only [getVersionById]
    rw [find?_version_append db.envVersions _ db.nextVersionId rfl hvid]
    simp [walkParents_none]
  · simp only [getEnvFileByProjectAndName] at hfind
    have hmem : fr ∈ db.envFiles := List.mem_of_find?_eq_some hfind
    rcases hx : db.envFiles.find? (fun r => r.id = fr.id) with _ | x
    · exact absurd (by simp : fr.id = fr.id)
        (by simpa using List.find?_eq_none.mp hx fr hmem)
    have hxid : x.id = fr.id := by simpa using List.find?_some hx
    simp only [commitOneFile, hsalt, Db.fresh, createOrUpdateEnvFile,
      getEnvFileByProjectAndName, hfind, updateEnvFile, createEnvVersion,
      insertEnvVersion, updateEnvFileVersion, Db.tick]
    refine ⟨fr.id, _, rfl, rfl, ?_⟩
    rw [chainFromHead]
    simp only [getEnvFileById]
    rw [find?_id_upd_map db.envFiles fr.id _ _
      (by intro r; by_cases h : r.id = fr.id <;> simp [h])
      (by intro r; by_cases h : r.id = fr.id <;> simp [h]) x hx]
    simp only [hxid, if_true, eq_self_iff_true, List.length_append,
      List.length_cons, List.length_nil, Nat.zero_add]
    rw [walkParents_succ_some]
    simp only [getVersionById]
    rw [find?_version_append db.envVersions _ db.nextVersionId rfl hvid]
    simp [walkParents_none]

/-! ## Concrete scenario states

A single user `"a@b"` with salt `"s"`, one project (id 1), and the end-to-end
scenario of spec §8: commit `.env` with content "KEY=1" (message "init"),
commit "KEY=2" (message "bump"), revert to the first commit's token, push. -/

/-- Byte content standing for `KEY=1`. -/
def keyOne : List Nat := [75, 69, 89, 61, 49]

/-- Byte content standing for `KEY=2`. -/
def keyTwo : List Nat := [75, 69, 89, 61, 50]

/-- The empty local database with the one registered user. -/
def db0 : Db :=
  { users := [⟨"a@b", "s"⟩]
    envFiles := []
    envVersions := []
    rollbackHistory := []
    pendingOperations := []
    nextFileId := 1
    nextVersionId := 1
    nextRollbackId := 1
    now := 0
    rng := 0 }

/-- Initial CLI state: logged in, offline (the spec scenario is local). -/
def st0 : LocalState :=
  { db := db0
    staging := none
    disk := [(".env", keyOne)]
    loggedIn := true
    online := false }

/-- The staging record `evm add` writes for one file of this project
(env-manager.js:514-528, `saveStagedFiles(stagedData)`). -/
def stageFile (msg : String) (content : List Nat) (st : LocalState) :
    LocalState :=
  { st with staging := some ⟨1, "a@b", msg, false, [⟨".env", content⟩]⟩ }

/-- State after the first commit (stage "KEY=1" with message "init", push). -/
def afterCommit1 : LocalState := pushStagedFiles (stageFile "init" keyOne st0)

/-- The state right before the second commit's push: the disk edited to KEY=2
and that content staged with message "bump". -/
def commit2Input : LocalState :=
  stageFile "bump" keyTwo { afterCommit1 with disk := [(".env", keyTwo)] }

/-- State after the second commit (stage "KEY=2" with message "bump", push). -/
def afterCommit2 : LocalState := pushStagedFiles commit2Input

/-- The first commit's version token (the rng draw used by commit 1). -/
def tokenOne : Nat := 1

/-- State after `evm revert <tokenOne>` followed by `evm push`. -/
def afterRevertPush : LocalState :=
  pushStagedFiles (handleRevert afterCommit2 tokenOne)

theorem filter_pending_map_mark (l : List PendingOpRow) (i userId : Nat) :
    ((l.map (fun op => if op.id = i then { op with processed := true } else op)).filter
      (fun op => op.userId = userId ∧ op.processed = false)) =
      ((l.filter (fun op => op.userId = userId ∧ op.processed = false)).filter
        (fun op => op.id ≠ i)) := by
  induction l with
  | nil => rfl
  | cons a t ih =>
      simp only [List.map_cons]
      by_cases hai : a.id = i
      · rw [if_pos hai]
        rw [List.filter_cons_of_neg (by simp)]
        rw [ih]
        by_cases hp : a.userId = userId ∧ a.processed = false
        · rw [List.filter_cons_of_pos (by simp [hp]),
            List.filter_cons_of_neg (by simp [hai])]
        · rw [List.filter_cons_of_neg (by simp [hp])]
      · rw [if_neg hai]
        by_cases hp : a.userId = userId ∧ a.processed = false
        · rw [List.filter_cons_of_pos (by simp [hp]),
            List.filter_cons_of_pos (by simp [hp]),
            List.filter_cons_of_pos (by simp [hai]), ih]
        · rw [List.filter_cons_of_neg (by simp [hp]),
            List.filter_cons_of_neg (by simp [hp]), ih]

/-- Marking one operation processed removes exactly that operation from what
`getPendingOperations` returns. -/
theorem getPendingOps_mark (db : Db) (i userId : Nat) :
    getPendingOperations (markOperationAsProcessed db i) userId =
      (getPendingOperations db userId).filter (fun op => op.id ≠ i) := by
  simp only [getPendingOperations, markOperationAsProcessed]
  exact filter_pending_map_mark db.pendingOperations i userId

theorem filter_ne_of_nodup (done rest : List PendingOpRow) (op : PendingOpRow)
    (hnd : ((done ++ op :: rest).map (fun r => r.id)).Nodup) :
    (done ++ op :: rest).filter (fun r => r.id ≠ op.id) = done ++ rest := by
  rw [List.map_append, List.map_cons, List.nodup_append] at hnd
  obtain ⟨hd, hcons, hdisj⟩ := hnd
  rw [List.nodup_cons] at hcons
  rw [List.filter_append, List.filter_cons]
  have h1 : done.filter (fun r => r.id ≠ op.id) = done := by
    rw [List.filter_eq_self]
    intro a ha
    simp only [ne_eq, decide_not, Bool.not_eq_eq_eq_not, Bool.not_true,
      decide_eq_false_iff_not]
    intro hEq
    exact absurd (List.mem_cons_self op.id (rest.map (fun r => r.id)))
      (by simpa [hEq] using hdisj (List.mem_map_of_mem _ ha))
  have h2 : rest.filter (fun r => r.id ≠ op.id) = rest := by
    rw [List.filter_eq_self]
    intro a ha
    simp only [ne_eq, decide_not, Bool.not_eq_eq_eq_not, Bool.not_true,
      decide_eq_false_iff_not]
    intro hEq
    exact hcons.1 (by simpa [hEq] using List.mem_map_of_mem (fun r => r.id) ha)
  simp only [ne_eq, decide_not] at h1 h2 ⊢
  simp [h1, h2]

/-- The invariant of the replay loop: if the pending list splits into an
already-traversed prefix `done` and a remaining suffix `ops`, then after
replaying `ops` the queue holds `done` plus exactly the non-acknowledged
members of `ops`, in order. -/
theorem replay_filter (userId : Nat) (ack : PendingOpRow → Bool) :
    ∀ (ops done : List PendingOpRow) (db : Db),
      getPendingOperations db userId = done ++ ops →
      ((done ++ ops).map (fun op => op.id)).Nodup →
      getPendingOperations
          (ops.foldl (fun d op =>
            if ack op then markOperationAsProcessed d op.id else d) db) userId
        = done ++ ops.filter (fun op => ack op = false) := by
  intro ops
  induction ops with
  | nil =>
      intro done db hP hnd
      simpa using hP
  | cons op rest ih =>
      intro done db hP hnd
      simp only [List.foldl_cons]
      by_cases hack : ack op
      · have hP' : getPendingOperations (markOperationAsProcessed db op.id) userId
            = done ++ rest := by
          rw [getPendingOps_mark, hP]
          exact filter_ne_of_nodup done rest op hnd
        have hnd' : ((done ++ rest).map (fun r => r.id)).Nodup := by
          refine List.Nodup.sublist (List.Sublist.map _ ?_) hnd
          exact List.Sublist.append_left
            (List.Sublist.cons op (List.Sublist.refl rest)) done
        have hrec := ih done (markOperationAsProcessed db op.id) hP' hnd'
        simp only [hack, if_true, List.filter_cons, hack]
        simpa [hack] using hrec
      · have hP' : getPendingOperations db userId = (done ++ [op]) ++ rest := by
          simpa [List.append_assoc] using hP
        have hnd' : (((done ++ [op]) ++ rest).map (fun r => r.id)).Nodup := by
          simpa [List.append_assoc] using hnd
        have hrec := ih (done ++ [op]) db hP' hnd'
        simp only [hack, if_false, List.filter_cons]
        simp only [Bool.not_eq_true] at hack
        simpa [hack, List.append_assoc] using hrec

/-- A local `env_files` row for `.env` whose `updatedAt` is 1 (older than the
remote copy below). -/
def c5LocalRow : EnvFileRow :=
  ⟨1, 1, ".env", [0], 0, ⟨"a@b", "s", 0, "a@b", [0]⟩, none, 1, 1⟩

/-- A pull state in which `.env` is present both in the local database (with
`updatedAt = 1`) and on disk. -/
def c5State : LocalState :=
  { db := { db0 with envFiles := [c5LocalRow], nextFileId := 2 }
    staging := none
    disk := [(".env", [0])]
    loggedIn := true
    online := true }

/-- The remote copy of `.env` with `updated_at = 5`, strictly newer than the
local row's `updatedAt = 1`. -/
def c5Remote : RemoteFile :=
  { name := ".env"
    encryptedContent := (encryptContent [4] "a@b" "s" 7).encryptedContent
    iv := 7
    tag := (encryptContent [4] "a@b" "s" 7).tag
    updatedAt := 5
    currentVersionId := none
    versions := [] }

/-- A remote `.env` whose content decrypts (for user `"a@b"`) to `[8]`. -/
def c6Remote : RemoteFile :=
  { name := ".env"
    encryptedContent := (encryptContent [8] "a@b" "s" 7).encryptedContent
    iv := 7
    tag := (encryptContent [8] "a@b" "s" 7).tag
    updatedAt := 5
    currentVersionId := none
    versions := [] }

/-- A pull state in which `.env` exists on disk (with content `[9]`) but has
no local database record. -/
def c6State : LocalState :=
  { db := db0
    staging := none
    disk := [(".env", [9])]
    loggedIn := true
    online := true }

/-- A queued `SYNC` operation (id 1, created first). -/
def c7Op1 : PendingOpRow := ⟨1, "SYNC", "FILE", 1, ".env", 1, false, 0⟩

/-- A queued `DELETE` operation (id 2, created second). -/
def c7Op2 : PendingOpRow := ⟨2, "DELETE", "FILE", 2, ".old", 1, false, 1⟩

/-- A store with two pending operations queued for user 1. -/
def c7Db : Db := { db0 with pendingOperations := [c7Op1, c7Op2] }

/-- A remote that acknowledges the first operation and fails the second. -/
def c7Ack : PendingOpRow → Bool := fun op => op.id = 1

/-- A remote store with one project ("demo", user 1) and one env file. -/
def c8Db : SrvDb :=
  { projects := [⟨1, 1, "demo"⟩]
    envFiles := [⟨1, 1, ".env"⟩]
    envVersions := []
    nextVersionId := 1 }

/-- A `POST /env-versions` body carrying version token 42. -/
def c8Body : VersionPostBody :=
  { projectName := "demo"
    fileName := ".env"
    versionToken := 42
    encryptedContent := [1]
    iv := 0
    tag := ⟨"a@b", "s", 0, "a@b", [1]⟩
    commitMessage := "m"
    authorEmail := "a@b" }

/-- An honest encryption of `[1, 2]` for user `"a@b"`. -/
def c9Enc : EncryptedBlob := encryptContent [1, 2] "a@b" "s" 5

/-- The same blob's tag with the associated data tampered (as if the
ciphertext were presented under a different email's AAD). -/
def c9BadTag : Tag := ⟨"a@b", "s", 5, "evil", c9Enc.encryptedContent⟩

/-- A store whose only version row for `.env` carries the tampered tag, so
decrypting the head fails tag verification. -/
def c9Db : Db :=
  { db0 with
      envFiles := [⟨1, 1, ".env", c9Enc.encryptedContent, 5, c9BadTag, some 1, 0, 0⟩]
      envVersions := [⟨1, 1, 1, c9Enc.encryptedContent, 5, c9BadTag, "m", "a@b",
        none, false, 0⟩]
      nextFileId := 2
      nextVersionId := 2 }

/-! ## Claims -/

/-- C1: For every plaintext P, user email, and that user's salt, decrypting the
triple (ciphertext, iv, tag) produced by `encryptContent(P, email, salt)` with
the same email and salt returns exactly P (for every IV draw). -/
theorem C1_encrypt_decrypt_roundtrip (content : List Nat) (email salt : String)
    (iv : Nat) :
    decryptContent (encryptContent content email salt iv).encryptedContent
      (encryptContent content email salt iv).iv
      (encryptContent content email salt iv).tag email salt = some content := by
  simp [decryptContent, encryptContent, xorStream_involutive]

/-- C2, counterexample: after the two sequential commits of the scenario
(N = 2 commits to `.env`), the file has two version rows, yet walking
`parentVersionId` from the head stops immediately: the chain has length 1,
not N = 2, because `pushStagedFiles` never passes a parent to
`createEnvVersion`. -/
theorem C2_counterexample :
    (afterCommit2.db.envVersions.filter (fun v => v.envFileId = 1)).length = 2 ∧
    (chainFromHead afterCommit2.db 1).length = 1 := by
  decide

/-- C2 (amended): an ordinary commit (`pushStagedFiles` on a non-revert
staging record) inserts its new `EnvVersion` with `parentVersionId = null` —
`createEnvVersion` is called with seven arguments, so the parameter defaults —
and therefore walking `parentVersionId` from the file's head after a commit
yields exactly ONE version (the new head itself, which has no parent), not
one version per commit. -/
theorem C2_commit_parent_is_null (st : LocalState) (sd : StagedData)
    (f : StagedFile) (salt : String)
    (hlog : st.loggedIn = true)
    (hstg : st.staging = some sd)
    (hrev : sd.isRevert = false)
    (hfl : sd.files = [f])
    (hoff : st.online = false)
    (hsalt : getUserEncryptionSalt st.db sd.userEmail = some salt)
    (hvid : ∀ v ∈ st.db.envVersions, v.id < st.db.nextVersionId)
    (hfid : ∀ fr ∈ st.db.envFiles, fr.id < st.db.nextFileId) :
    ∃ fid vrow,
      (pushStagedFiles st).db.envVersions = st.db.envVersions ++ [vrow] ∧
      vrow.parentVersionId = none ∧
      chainFromHead (pushStagedFiles st).db fid = [vrow] := by
  have hpush : (pushStagedFiles st).db =
      commitOneFile sd.userEmail sd.commitMessage sd.projectId st.db f := by
    simp [pushStagedFiles, hlog, hstg, hrev, hfl, hoff, syncSpecificFiles]
  rw [hpush]
  exact commitOneFile_spec st.db sd.userEmail sd.commitMessage sd.projectId
    f salt hsalt hvid hfid

/-- Witness for C2 at the scenario's second commit: all hypotheses hold at
`commit2Input` and the commit appends one parentless version that is the whole
chain from the head. -/
theorem C2_commit_parent_is_null_witness :
    commit2Input.loggedIn = true ∧
    commit2Input.staging = some ⟨1, "a@b", "bump", false, [⟨".env", keyTwo⟩]⟩ ∧
    getUserEncryptionSalt commit2Input.db "a@b" = some "s" ∧
    (∃ fid vrow,
      (pushStagedFiles commit2Input).db.envVersions =
        commit2Input.db.envVersions ++ [vrow] ∧
      vrow.parentVersionId = none ∧
      chainFromHead (pushStagedFiles commit2Input).db fid = [vrow]) := by
  refine ⟨rfl, rfl, by decide,
    C2_commit_parent_is_null commit2Input _ ⟨".env", keyTwo⟩ "s" rfl rfl rfl rfl rfl
      (by decide) (by decide) (by decide)⟩

/-- C3: for every store in which the target token `T` exists, the file exists
and the file has a head (its most recent version `prev`, which
`current_version_id` points at), `rollbackToVersion` succeeds and: the new
version row copies version T's encrypted content/iv/tag verbatim (hence
decrypts identically under every key), its parent is `prev` — the head
immediately before the rollback, not T itself; the file's head moves to the
new row; a rollback-history row `(from = prev.token, to = T)` is appended; and
the `env_versions` table is changed only by appending the one new row — no
existing EnvVersion row is modified. -/
theorem C3_rollback_commit_shaped (db : Db) (fileId targetToken : Nat)
    (reason performedBy : String)
    (tv prev : EnvVersionRow) (ef : EnvFileRow)
    (htv : getVersionByToken db targetToken = some tv)
    (hef : getEnvFileById db fileId = some ef)
    (hprev : (getVersionsByEnvFile db fileId).head? = some prev)
    (hcur : ef.currentVersionId = some prev.id) :
    (rollbackToVersion db fileId targetToken reason performedBy).1.isSome = true ∧
    ∃ vrow rrow,
      (rollbackToVersion db fileId targetToken reason performedBy).2.envVersions
        = db.envVersions ++ [vrow] ∧
      vrow.encryptedContent = tv.encryptedContent ∧
      vrow.iv = tv.iv ∧
      vrow.tag = tv.tag ∧
      (∀ email salt,
        decryptContent vrow.encryptedContent vrow.iv vrow.tag email salt =
          decryptContent tv.encryptedContent tv.iv tv.tag email salt) ∧
      vrow.parentVersionId = some prev.id ∧
      (getEnvFileById
          (rollbackToVersion db fileId targetToken reason performedBy).2 fileId).map
          (fun fr => fr.currentVersionId)
        = some (some vrow.id) ∧
      (rollbackToVersion db fileId targetToken reason performedBy).2.rollbackHistory
        = db.rollbackHistory ++ [rrow] ∧
      rrow.fromVersionToken = some prev.versionToken ∧
      rrow.toVersionToken = targetToken := by
  have hef' : db.envFiles.find? (fun r => r.id = fileId) = some ef := by
    simpa [getEnvFileById] using hef
  have hefid : ef.id = fileId := by
    have hh := List.find?_some hef'
    simpa using hh
  simp only [rollbackToVersion, htv, hef, hprev, insertRollbackHistory,
    Db.fresh, insertEnvVersion, updateEnvFile, updateEnvFileVersion, Db.tick,
    Option.map_some']
  refine ⟨rfl, _, _, rfl, rfl, rfl, rfl, (fun email salt => rfl), rfl,
    ?_, rfl, rfl, rfl⟩
  simp only [getEnvFileById]
  rw [find?_id_upd_map db.envFiles fileId _ _
    (by intro r; by_cases h : r.id = fileId <;> simp [h])
    (by intro r; by_cases h : r.id = fileId <;> simp [h]) ef hef']
  simp [hefid]

/-- Witness for C3: in the two-commit scenario store, rolling `.env` back to
the first commit's token satisfies every hypothesis and succeeds. -/
theorem C3_rollback_commit_shaped_witness :
    (getVersionByToken afterCommit2.db tokenOne).isSome = true ∧
    (getEnvFileById afterCommit2.db 1).isSome = true ∧
    ((getVersionsByEnvFile afterCommit2.db 1).head?).isSome = true ∧
    (rollbackToVersion afterCommit2.db 1 tokenOne "roll" "a@b").1.isSome = true := by
  refine ⟨by decide, by decide, by decide, ?_⟩
  exact (C3_rollback_commit_shaped afterCommit2.db 1 tokenOne "roll" "a@b"
    _ _ _ rfl rfl rfl (by decide)).1

/-- C4, counterexample: in the end-to-end scenario (commit KEY=1, commit
KEY=2, `evm revert <first token>`, `evm push`), NO third commit is created —
the file still has exactly its two version rows — and NO RollbackRecord
exists at all, contradicting both conjuncts of the claim.  (`handleRevert`
crashes calling the unexported `saveStagedFiles`, so nothing gets staged, and
the subsequent push finds no staging record.) -/
theorem C4_counterexample :
    (afterRevertPush.db.envVersions.filter (fun v => v.envFileId = 1)).length = 2 ∧
    afterRevertPush.db.rollbackHistory = [] := by
  decide

/-- C4 (amended): in the end-to-end scenario, the revert command fails (it
calls `saveStagedFiles`, which env-manager.js does not export), so the revert
followed by push leaves the state completely unchanged: the two original
commits with tokens [second, first] are the whole history, the head still
decrypts to KEY=2 (not KEY=1), and no RollbackRecord is recorded. -/
theorem C4_revert_creates_nothing :
    afterRevertPush = afterCommit2 ∧
    (getVersionsByEnvFile afterRevertPush.db 1).map (fun v => v.versionToken)
      = [3, tokenOne] ∧
    ((getVersionsByEnvFile afterRevertPush.db 1).head?).map
        (fun v => decryptContent v.encryptedContent v.iv v.tag "a@b" "s")
      = some (some keyTwo) ∧
    afterRevertPush.db.rollbackHistory = [] := by
  refine ⟨by decide, by decide, ?_, by decide⟩
  decide

/-- C5: at a concrete pull input where the file is present in both the local
database and on disk and the remote `updated_at` (5) is strictly greater than
the local `updatedAt` (1), `handlePullFile` still SKIPS the file and leaves
the state untouched.  The claim says it must be overwritten.  The cause:
part_011:705 reads `localFile.updated_at`, but the local column is
`updatedAt`, so the comparison is against `new Date(undefined)` (NaN) and is
always false (see `localFileUpdatedAtField` and `jsDateGt`). -/
theorem C5_pull_skips_newer_remote :
    c5Remote.updatedAt > c5LocalRow.updatedAt ∧
    handlePullFile c5State "a@b" "s" 1 c5Remote = (c5State, PullOutcome.skipped) := by
  decide

/-- C6, counterexample: for a remote `.env` decrypting to `[8]` and a local
disk copy `[9]` with no database record, `handlePullFile` rewrites the disk
file to `[8]` — the claim says the on-disk content is left unchanged. -/
theorem C6_counterexample :
    diskRead c6State.disk ".env" = some [9] ∧
    diskRead (handlePullFile c6State "a@b" "s" 1 c6Remote).1.disk ".env"
      = some [8] ∧
    ([8] : List Nat) ≠ [9] := by
  decide

/-- C6 (amended): during pull, a remote file that exists on disk but has no
local database record is adopted into the database (a row carrying the remote
encrypted content appears) AND the on-disk file is overwritten with the
decrypted remote content — the branch logs "updating database" but then runs
the same full pull path as the others, disk write included
(part_011:698-738). -/
theorem C6_adopts_and_overwrites (st : LocalState) (email salt : String)
    (pid : Nat) (cf : RemoteFile) (p : List Nat)
    (hdisk : (diskRead st.disk cf.name).isSome = true)
    (hdb : getEnvFileByProjectAndName st.db pid cf.name = none)
    (hdec : decryptContent cf.encryptedContent cf.iv cf.tag email salt = some p) :
    (handlePullFile st email salt pid cf).2 = PullOutcome.pulled ∧
    diskRead (handlePullFile st email salt pid cf).1.disk cf.name = some p ∧
    ∃ fr, getEnvFileByProjectAndName (handlePullFile st email salt pid cf).1.db
        pid cf.name = some fr ∧
      fr.encryptedContent = cf.encryptedContent ∧ fr.iv = cf.iv ∧
      fr.tag = cf.tag := by
  have hdb' : st.db.envFiles.find?
      (fun f => f.projectId = pid ∧ f.name = cf.name) = none := by
    simpa [getEnvFileByProjectAndName] using hdb
  simp only [handlePullFile, hdb', hdisk, hdec, restoreFileWithVersions,
    getEnvFileByProjectAndName, insertEnvFile, Db.tick]
  rw [if_neg (by decide : ¬(true = false))]
  refine ⟨rfl, diskRead_diskWrite st.disk cf.name p, ?_⟩
  rcases hcv : cf.currentVersionId with _ | cv
  · simp only [hcv]
    rw [foldl_insert_envFiles]
    simp only []
    rw [find?_append_of_none _ _ _ hdb']
    exact ⟨_, List.find?_cons_of_pos _ (by simp), rfl, rfl, rfl⟩
  · simp only [hcv]
    by_cases hcv0 : cv = 0
    · simp only [hcv0, eq_self_iff_true, if_true]
      rw [foldl_insert_envFiles]
      simp only []
      rw [find?_append_of_none _ _ _ hdb']
      exact ⟨_, List.find?_cons_of_pos _ (by simp), rfl, rfl, rfl⟩
    · rw [if_neg hcv0]
      simp only [setCurrentVersionIdOnly]
      rw [foldl_insert_envFiles]
      simp only []
      rw [find?_projname_map _
        (by intro r; by_cases h : r.id = st.db.nextFileId <;> simp [h])
        (by intro r; by_cases h : r.id = st.db.nextFileId <;> simp [h])]
      rw [find?_append_of_none _ _ _ hdb']
      rw [List.find?_cons_of_pos _ (by simp)]
      refine ⟨_, rfl, ?_, ?_, ?_⟩ <;>
        by_cases h : st.db.nextFileId = st.db.nextFileId <;> simp [h]

/-- Witness for C6 at the concrete adopt-into-DB input: the hypotheses hold
and the pull overwrites the disk copy `[9]` with the remote plaintext `[8]`
while creating the database row. -/
theorem C6_adopts_and_overwrites_witness :
    (diskRead c6State.disk ".env").isSome = true ∧
    getEnvFileByProjectAndName c6State.db 1 ".env" = none ∧
    ((handlePullFile c6State "a@b" "s" 1 c6Remote).2 = PullOutcome.pulled ∧
     diskRead (handlePullFile c6State "a@b" "s" 1 c6Remote).1.disk ".env"
       = some [8] ∧
     ∃ fr, getEnvFileByProjectAndName
         (handlePullFile c6State "a@b" "s" 1 c6Remote).1.db 1 ".env" = some fr ∧
       fr.encryptedContent = c6Remote.encryptedContent ∧
       fr.iv = c6Remote.iv ∧ fr.tag = c6Remote.tag) := by
  refine ⟨by decide, by decide, ?_⟩
  exact C6_adopts_and_overwrites c6State "a@b" "s" 1 c6Remote [8]
    (by decide) (by decide) (by decide)

/-- C7: on a sync invocation, the pending operations are fetched oldest first
(the returned list is sorted by `createdAt` ascending) and replayed in that
order; afterwards, an operation is still returned by `getPendingOperations`
exactly when its replay was NOT acknowledged — acknowledged operations are
marked processed and no longer appear (the row itself is retained with
`processed = 1`; "deleted from the queue" in the sense the claim defines:
a subsequent read no longer returns it), and every failed operation remains
queued, still in creation order. -/
theorem C7_pending_replay (db : Db) (userId : Nat) (ack : PendingOpRow → Bool)
    (hnd : (db.pendingOperations.map (fun op => op.id)).Nodup)
    (hsort : db.pendingOperations.Pairwise (fun a b => a.createdAt ≤ b.createdAt)) :
    (getPendingOperations db userId).Pairwise (fun a b => a.createdAt ≤ b.createdAt) ∧
    getPendingOperations (processPendingOps db userId ack) userId
      = (getPendingOperations db userId).filter (fun op => ack op = false) := by
  constructor
  · exact hsort.sublist (List.filter_sublist _)
  · have hnd2 : ((getPendingOperations db userId).map (fun op => op.id)).Nodup :=
      List.Nodup.sublist (List.Sublist.map _ (List.filter_sublist _)) hnd
    have hrec := replay_filter userId ack (getPendingOperations db userId) [] db
      (by simp) (by simpa using hnd2)
    simpa [processPendingOps] using hrec

/-- Witness for C7: a queue with a `SYNC` then a `DELETE` operation, where the
remote acknowledges the first and fails the second — afterwards only the
second remains pending. -/
theorem C7_pending_replay_witness :
    (c7Db.pendingOperations.map (fun op => op.id)).Nodup ∧
    c7Db.pendingOperations.Pairwise (fun a b => a.createdAt ≤ b.createdAt) ∧
    ((getPendingOperations c7Db 1).Pairwise (fun a b => a.createdAt ≤ b.createdAt) ∧
     getPendingOperations (processPendingOps c7Db 1 c7Ack) 1
       = (getPendingOperations c7Db 1).filter (fun op => c7Ack op = false)) := by
  exact ⟨by decide, by decide,
    C7_pending_replay c7Db 1 c7Ack (by decide) (by decide)⟩

/-- C8: posting the same `(project, file, version_token)` body to
`POST /env-versions` twice — against a remote store where the project and file
resolve and no row with that `(env_file, version_token)` key exists yet —
answers success both times and leaves exactly one matching version row: the
first call inserts, the second finds the existing row and skips. -/
theorem C8_post_env_versions_idempotent (db : SrvDb) (userId : Nat)
    (b : VersionPostBody) (p : SrvProject) (f : SrvEnvFile)
    (hp : db.projects.find? (fun q => q.userId = userId ∧ q.name = b.projectName)
      = some p)
    (hf : db.envFiles.find? (fun g => g.projectId = p.id ∧ g.name = b.fileName)
      = some f)
    (hnone : db.envVersions.filter (fun v =>
      v.envFileId = f.id ∧ v.versionToken = b.versionToken) = []) :
    (postEnvVersions db userId b).2 = SrvResponse.ok ∧
    (postEnvVersions (postEnvVersions db userId b).1 userId b).2
      = SrvResponse.ok ∧
    ((postEnvVersions (postEnvVersions db userId b).1 userId b).1.envVersions.filter
      (fun v => v.envFileId = f.id ∧ v.versionToken = b.versionToken)).length
      = 1 := by
  simp only [postEnvVersions, hp, hf, hnone, List.isEmpty_nil, if_true]
  simp [List.filter_append, hnone, List.filter_cons]
  intro a ha haf
  have hcontr := List.filter_eq_nil_iff.mp hnone a ha
  simp [haf] at hcontr
  exact hcontr

/-- Witness for C8: a concrete remote store and body; pushing the version
twice succeeds twice and leaves one row with token 42. -/
theorem C8_post_env_versions_idempotent_witness :
    (postEnvVersions c8Db 1 c8Body).2 = SrvResponse.ok ∧
    (postEnvVersions (postEnvVersions c8Db 1 c8Body).1 1 c8Body).2
      = SrvResponse.ok ∧
    ((postEnvVersions (postEnvVersions c8Db 1 c8Body).1 1 c8Body).1.envVersions.filter
      (fun v => v.envFileId = 1 ∧ v.versionToken = 42)).length = 1 := by
  have h := C8_post_env_versions_idempotent c8Db 1 c8Body ⟨1, 1, "demo"⟩
    ⟨1, 1, ".env"⟩ (by decide) (by decide) (by decide)
  exact ⟨h.1, h.2.1, h.2.2⟩

/-- C9, counterexample: at a store whose head version of `.env` carries a
tampered tag, the decryption of that version fails (returns nothing), yet
`hasFileChanged` — an operation that decrypts content — does NOT fail: its
catch block swallows the error and it returns `true` ("changed"), continuing
as if nothing happened.  This refutes the claim's "no operation that decrypts
content silently suppresses such a failure". -/
theorem C9_counterexample :
    decryptContent c9Enc.encryptedContent 5 c9BadTag "a@b" "s" = none ∧
    hasFileChanged c9Db 1 ".env" [1, 2] "a@b" = true := by
  decide

/-- C9 (amended): `decryptContent` is all-or-nothing — whenever it returns a
plaintext, the input triple is exactly the honest encryption of that full
plaintext under the given email, salt and IV (so tampering with ciphertext,
iv, tag or email-as-AAD can never yield partial or altered output; the only
other outcome is failure).  However, `hasFileChanged` does not propagate a
decryption failure: whenever decrypting the head version fails, it catches
the error and reports the file as changed (`true`) instead of failing. -/
theorem C9_decrypt_integrity :
    (∀ (c : List Nat) (iv : Nat) (tag : Tag) (email salt : String) (p : List Nat),
      decryptContent c iv tag email salt = some p →
      encryptContent p email salt iv = ⟨c, iv, tag⟩) ∧
    (∀ (db : Db) (pid : Nat) (nm : String) (cur : List Nat) (email salt : String)
      (f : EnvFileRow) (v : EnvVersionRow),
      getEnvFileByProjectAndName db pid nm = some f →
      (getVersionsByEnvFile db f.id).head? = some v →
      getUserEncryptionSalt db email = some salt →
      decryptContent v.encryptedContent v.iv v.tag email salt = none →
      hasFileChanged db pid nm cur email = true) := by
  constructor
  · intro c iv tag email salt p hdec
    by_cases h : tag = ⟨email, salt, iv, email, c⟩
    · rw [decryptContent, if_pos h] at hdec
      obtain rfl : xorStream email salt iv 0 c = p := Option.some.inj hdec
      simp [encryptContent, xorStream_involutive, h]
    · rw [decryptContent, if_neg h] at hdec
      exact Option.noConfusion hdec
  · intro db pid nm cur email salt f v hf hv hsalt hdec
    simp only [hasFileChanged, hf, hv, hsalt, hdec]

/-- Witness for C9: both halves applied at concrete inputs — an honest
encryption round-trips through the authenticity direction, and the tampered
store shows `hasFileChanged` returning `true` on a failing decryption. -/
theorem C9_decrypt_integrity_witness :
    encryptContent [3] "a@b" "s" 2 =
      ⟨(encryptContent [3] "a@b" "s" 2).encryptedContent, 2,
        (encryptContent [3] "a@b" "s" 2).tag⟩ ∧
    hasFileChanged c9Db 1 ".env" [1, 2] "a@b" = true := by
  refine ⟨?_, ?_⟩
  · exact C9_decrypt_integrity.1 (encryptContent [3] "a@b" "s" 2).encryptedContent
      2 (encryptContent [3] "a@b" "s" 2).tag "a@b" "s" [3] (by decide)
  · exact C9_decrypt_integrity.2 c9Db 1 ".env" [1, 2] "a@b" "s" _ _
      rfl rfl rfl (by decide)

/-- C10: whenever a staging record exists and the user is logged in,
`pushStagedFiles` removes the staging record — unconditionally, whatever the
staged files are and whether or not any of them commit successfully
(`clearStagingArea()` runs right after the per-file loop, each iteration of
which catches its own errors, and before the cloud sync attempt). -/
theorem C10_push_clears_staging (st : LocalState) (sd : StagedData)
    (hlog : st.loggedIn = true) (hstg : st.staging = some sd) :
    (pushStagedFiles st).staging = none := by
  simp [pushStagedFiles, hlog, hstg]

/-- A state whose staged record names a user with no `users` row, so
`getUserEncryptionSalt` is `none`, `encryptContent` throws and the staged
file fails to commit. -/
def ghostStagedState : LocalState :=
  { db := db0
    staging := some ⟨1, "ghost@nowhere", "m", false, [⟨".env", [1]⟩]⟩
    disk := []
    loggedIn := true
    online := false }

/-- Witness for C10 at a concrete state whose staged file cannot even be
encrypted: the staging record is cleared anyway. -/
theorem C10_push_clears_staging_witness :
    ghostStagedState.loggedIn = true ∧
    ghostStagedState.staging =
      some ⟨1, "ghost@nowhere", "m", false, [⟨".env", [1]⟩]⟩ ∧
    (pushStagedFiles ghostStagedState).staging = none :=
  ⟨rfl, rfl, C10_push_clears_staging ghostStagedState
    ⟨1, "ghost@nowhere", "m", false, [⟨".env", [1]⟩]⟩ rfl rfl⟩

end EVM
